import Mathlib

/-!
# Verification of the sharded key-value store (coordinator + shard WAL)

Shallow embedding of `src/app/shard.py` (the `WALManager` storage engine)
and `src/app/coordinator.py` (topology registry, storage-key composition,
request dispatch handlers), together with proofs of the spec's claims.

Record values are opaque in the source (never interpreted), so all shard
definitions are parametrised by a value type `V`; Python `None` is modelled
as `Option.none` (a WAL `DELETE` entry carries `value = None`).
-/

namespace KVStore

/-- One WAL line, as produced by `WALManager.append`:
`{"offset": ..., "op": ..., "key": ..., "value": ..., "ts": ...}`.
`op` is a string in the source (`"PUT"` or `"DELETE"`); the timestamp is an
opaque environment input. -/
structure WALEntry (V : Type) where
  offset : Nat
  op : String
  key : String
  value : Option V
  ts : Nat
  deriving DecidableEq

/-- The in-memory `DATA_STORE`: a dict from storage key to
`{"val": value, "ver": offset}`. Modelled as a function to capture the
dict's contents. -/
def Store (V : Type) := String → Option (Option V × Nat)

/-- The empty `DATA_STORE`. -/
def emptyStore (V : Type) : Store V := fun _ => none

/-- `WALManager._apply_entry`: a `PUT` stores `(value, offset)` under the
entry's key, a `DELETE` removes the key, any other op string is ignored
(the source's `if/elif` falls through). -/
def applyEntry {V : Type} (e : WALEntry V) (s : Store V) : Store V :=
  if e.op = "PUT" then
    fun k => if k = e.key then some (e.value, e.offset) else s k
  else if e.op = "DELETE" then
    fun k => if k = e.key then none else s k
  else s

/-- The state of a `WALManager` together with its on-disk WAL file: the file
is the list of (well-formed) lines in append order, `store` is the global
`DATA_STORE`, and `current_offset` the manager's high-water mark. -/
structure WALState (V : Type) where
  file : List (WALEntry V)
  store : Store V
  current_offset : Nat

/-- A fresh node: no WAL file contents, empty `DATA_STORE`, offset `0`. -/
def emptyWAL (V : Type) : WALState V :=
  { file := [], store := emptyStore V, current_offset := 0 }

/-- `WALManager.append(key, value, op)`: increment `current_offset`, build
the entry, append its line to the file, apply it to memory, return the new
state together with the returned entry. The timestamp is an input. -/
def WALState.append {V : Type} (st : WALState V) (key : String)
    (value : Option V) (op : String) (ts : Nat) :
    WALState V × WALEntry V :=
  let e : WALEntry V :=
    { offset := st.current_offset + 1, op := op, key := key,
      value := value, ts := ts }
  ({ file := st.file ++ [e], store := applyEntry e st.store,
     current_offset := st.current_offset + 1 }, e)

/-- The store/offset pair built by `WALManager.recover` while scanning the
file: each well-formed line is applied in file order and `current_offset`
is set to that line's offset. -/
def recoverFold {V : Type} (file : List (WALEntry V)) : Store V × Nat :=
  file.foldl (fun p e => (applyEntry e p.1, e.offset)) (emptyStore V, 0)

/-- `WALManager.recover()` run on a WAL file from an empty in-memory map
(`current_offset = 0`, as set by the constructor). -/
def WALState.recover {V : Type} (file : List (WALEntry V)) : WALState V :=
  { file := file, store := (recoverFold file).1,
    current_offset := (recoverFold file).2 }

/-- `WALManager.apply_batch(entries)`: for each entry in order, skip it when
`entry.offset ≤ current_offset`, otherwise append its line to the local WAL,
apply it to memory and set `current_offset := entry.offset`. -/
def WALState.apply_batch {V : Type} (st : WALState V)
    (entries : List (WALEntry V)) : WALState V :=
  entries.foldl
    (fun s e =>
      if e.offset ≤ s.current_offset then s
      else { file := s.file ++ [e], store := applyEntry e s.store,
             current_offset := e.offset })
    st

/-- One client-visible append request: the arguments the shard handlers pass
to `wal.append` (`write_data` passes `(key, payload.value, "PUT")`,
`delete_data` passes `(key, None, "DELETE")`), plus the wall-clock stamp. -/
structure AppendOp (V : Type) where
  key : String
  value : Option V
  op : String
  ts : Nat
  deriving DecidableEq

/-- Run a finite sequence of `append` calls against a writer state. -/
def runAppends {V : Type} (ops : List (AppendOp V)) (st : WALState V) :
    WALState V :=
  ops.foldl (fun s o => (s.append o.key o.value o.op o.ts).1) st

/-- Fold `_apply_entry` over a list of entries (the state-building part of
replay, without offset bookkeeping). -/
def applyAll {V : Type} (es : List (WALEntry V)) (s : Store V) : Store V :=
  es.foldl (fun s e => applyEntry e s) s

/-! ## Coordinator: topology registry (`src/app/coordinator.py`) -/

/-- One entry of `SHARD_TOPOLOGY`: `{"leader": ..., "followers": [...]}`. -/
structure ShardGroup where
  leader : Option String
  followers : List String
  deriving DecidableEq

/-- Coordinator registry state: the `SHARD_TOPOLOGY` dict (as a function
from `shard_id`) and the membership of the consistent-hash `ring` (the list
of node names added via `ring.add_node`, in addition order). -/
structure CoordState where
  topology : String → Option ShardGroup
  ringNodes : List String

/-- `register_shard`: if the `shard_id` is unknown, create an empty group
and add the id to the ring; then, for role `"leader"`, overwrite the
group's leader with `url`; for any other role, append `url` to the
followers unless already present. -/
def registerShard (st : CoordState) (shard_id url role : String) :
    CoordState :=
  let st1 : CoordState :=
    match st.topology shard_id with
    | none =>
        { topology := Function.update st.topology shard_id
            (some { leader := none, followers := [] }),
          ringNodes := st.ringNodes ++ [shard_id] }
    | some _ => st
  let g : ShardGroup :=
    (st1.topology shard_id).getD { leader := none, followers := [] }
  if role = "leader" then
    { st1 with
      topology := Function.update st1.topology shard_id
        (some { g with leader := some url }) }
  else if url ∈ g.followers then st1
  else
    { st1 with
      topology := Function.update st1.topology shard_id
        (some { g with followers := g.followers ++ [url] }) }

/-- `_get_storage_key(partition_key, sort_key)`: the Python conditional
`f"{partition_key}#{sort_key}" if sort_key else partition_key`, where a
missing sort key (`None`) and the empty string are both falsy. -/
def getStorageKey (partition_key : String) (sort_key : Option String) :
    String :=
  match sort_key with
  | none => partition_key
  | some s => if s = "" then partition_key else partition_key ++ "#" ++ s

/-! ## Coordinator: dispatch handlers

The outcome of one outbound HTTP call is an environment input: the shard's
`GET /storage/{key}` endpoint answers 404 or 200 `{value, version}`, and a
call can also fail at the transport layer (`httpx` exception). -/

/-- Outcome of one `GET /storage/{key}` call made by the coordinator. -/
inductive FetchResult (V : Type) where
  /-- transport failure: the client call raised an exception -/
  | fail
  /-- HTTP 404 from the replica -/
  | notFound
  /-- well-formed HTTP 200 with body `{value, version}` -/
  | ok (value : Option V) (version : Nat)
  deriving DecidableEq

/-- A response body or an `HTTPException(code)` surfaced to the client. -/
inductive ReadOutcome (V : Type) where
  | body (value : Option V) (version : Nat)
  | error (code : Nat)
  deriving DecidableEq

/-- `read_record` with a non-empty replica set, as a function of the
outcomes of the (up to two) replica calls it makes: `r1` is the first
randomly-chosen replica's answer and `r2` the answer of the independently
re-sampled replica consulted inside the `except httpx.HTTPError` handler.
A 404 on the first attempt raises `HTTPException(404)`, which is not an
`httpx.HTTPError` and propagates; on the second attempt the same raise sits
inside a bare `except:` block, which catches it and turns it into the 502
`"Replica read failed"` error. -/
def readRecord {V : Type} (r1 r2 : FetchResult V) : ReadOutcome V :=
  match r1 with
  | .ok v ver => .body v ver
  | .notFound => .error 404
  | .fail =>
    match r2 with
    | .ok v ver => .body v ver
    | .notFound => .error 502
    | .fail => .error 502

/-- Outcome of one `HEAD` (or `DELETE`) call made by the coordinator: a
transport failure, or a response whose status code is passed along. -/
inductive StatusResult where
  | fail
  | status (code : Nat)
  deriving DecidableEq

/-- `check_exists` with a non-empty replica set. The handler makes a single
`HEAD` call to one randomly-chosen replica and passes its status code
through; any exception yields 502. `r2` models the answer a once-retried,
freshly-sampled replica would have given — the source makes no second
call, so `r2` is never consulted. -/
def checkExists (r1 : StatusResult) (r2 : StatusResult) : Nat :=
  match r1 with
  | .status c => c
  | .fail => 502

/-- Client-visible outcome of the coordinator's DELETE handler. -/
inductive DeleteOutcome where
  /-- the handler returned `{"status": "deleted"}` -/
  | deleted
  | error (code : Nat)
  deriving DecidableEq

/-- `delete_record` once a leader is known, as a function of the leader
call's outcome. Only an `httpx.HTTPError` reaches the 502 branch; the
response's status code is never inspected (`raise_for_status` is not
called), so any HTTP response at all yields `{"status": "deleted"}`. -/
def deleteRecord (r : StatusResult) : DeleteOutcome :=
  match r with
  | .fail => .error 502
  | .status _ => .deleted

/-- `valid_results` in `read_quorum`: the bodies of the responses that are
real HTTP responses with status 200, kept in sample order. -/
def validResults {V : Type} (rs : List (FetchResult V)) :
    List (Option V × Nat) :=
  rs.filterMap fun r =>
    match r with
    | .ok v ver => some (v, ver)
    | _ => none

/-- Python's `max(valid_results, key=lambda x: x["version"])` on the
non-empty list `x :: xs`: scan left to right, replacing the best element
only on a strictly larger version, so the first maximal element wins. -/
def maxByVersion {V : Type} (x : Option V × Nat)
    (xs : List (Option V × Nat)) : Option V × Nat :=
  xs.foldl (fun b y => if y.2 > b.2 then y else b) x

/-- Client-visible outcome of the quorum read handler. -/
inductive QuorumOutcome (V : Type) where
  | success (value : Option V) (version : Nat) (quorum_met : Bool)
  | error (code : Nat)
  deriving DecidableEq

/-- `read_quorum`, as a function of the replica-set size, the requested
`R`, and the outcomes of the `R` parallel reads in sample order: fail 400
when fewer than `R` replicas exist, otherwise collect the well-formed 200
responses; none → 404, else answer with the highest-version body and
`quorum_met = True`. -/
def readQuorum {V : Type} (numReplicas R : Nat)
    (rs : List (FetchResult V)) : QuorumOutcome V :=
  if numReplicas < R then .error 400
  else
    match validResults rs with
    | [] => .error 404
    | x :: xs =>
      let b := maxByVersion x xs
      .success b.1 b.2 true

/-- `b` is the first element of `l` attaining the maximal version: every
element before it has a strictly smaller version, every element after it a
version no larger. -/
def IsFirstMax {V : Type} (l : List (Option V × Nat))
    (b : Option V × Nat) : Prop :=
  ∃ l₁ l₂, l = l₁ ++ b :: l₂ ∧ (∀ z ∈ l₁, z.2 < b.2) ∧
    ∀ z ∈ l₂, z.2 ≤ b.2

/-! ## WAL lemmas -/

lemma recoverFold_concat {V : Type} (file : List (WALEntry V))
    (e : WALEntry V) :
    recoverFold (file ++ [e])
      = (applyEntry e (recoverFold file).1, e.offset) := by
  unfold recoverFold
  rw [List.foldl_append]
  rfl

lemma runAppends_recoverFold {V : Type} (ops : List (AppendOp V))
    (st : WALState V)
    (h : recoverFold st.file = (st.store, st.current_offset)) :
    recoverFold (runAppends ops st).file
      = ((runAppends ops st).store, (runAppends ops st).current_offset) := by
  induction ops generalizing st with
  | nil => exact h
  | cons o os ih =>
    show recoverFold (runAppends os (st.append o.key o.value o.op o.ts).1).file = _
    apply ih
    simp [WALState.append, recoverFold_concat, h]

lemma runAppends_getLast {V : Type} (ops : List (AppendOp V))
    (st : WALState V)
    (h : ∀ hne : st.file ≠ [], (st.file.getLast hne).offset
           = st.current_offset) :
    ∀ hne : (runAppends ops st).file ≠ [],
      ((runAppends ops st).file.getLast hne).offset
        = (runAppends ops st).current_offset := by
  induction ops generalizing st with
  | nil => exact h
  | cons o os ih =>
    show ∀ hne : (runAppends os (st.append o.key o.value o.op o.ts).1).file
        ≠ [], _
    apply ih
    intro hne
    simp [WALState.append, List.getLast_append]

lemma runAppends_offsets {V : Type} (ops : List (AppendOp V))
    (st : WALState V)
    (h1 : st.file.map (fun e => e.offset)
            = List.range' 1 st.current_offset)
    (h2 : st.current_offset = st.file.length) :
    (runAppends ops st).file.map (fun e => e.offset)
        = List.range' 1 (runAppends ops st).current_offset
      ∧ (runAppends ops st).current_offset = (runAppends ops st).file.length
      ∧ (runAppends ops st).file.length = st.file.length + ops.length := by
  induction ops generalizing st with
  | nil => exact ⟨h1, h2, rfl⟩
  | cons o os ih =>
    have hstep : runAppends (o :: os) st
        = runAppends os (st.append o.key o.value o.op o.ts).1 := rfl
    rw [hstep]
    have h1' : ((st.append o.key o.value o.op o.ts).1).file.map
        (fun e => e.offset)
        = List.range' 1 ((st.append o.key o.value o.op o.ts).1
            ).current_offset := by
      simp [WALState.append, h1, List.range'_concat, Nat.add_comm]
    have h2' : ((st.append o.key o.value o.op o.ts).1).current_offset
        = ((st.append o.key o.value o.op o.ts).1).file.length := by
      simp [WALState.append, h2]
    obtain ⟨g1, g2, g3⟩ := ih _ h1' h2'
    refine ⟨g1, g2, ?_⟩
    rw [g3]
    simp [WALState.append]
    omega

/-- C1. For every finite sequence of `append(key, value, op)` operations
performed from an empty WAL and empty in-memory map, running `recover()`
on the resulting WAL file from an empty map reproduces exactly the
in-memory map the writer held, and leaves `current_offset` equal to the
offset of the last entry in the file. -/
theorem wal_replay_equivalence {V : Type} (ops : List (AppendOp V)) :
    (WALState.recover (runAppends ops (emptyWAL V)).file).store
        = (runAppends ops (emptyWAL V)).store
      ∧ (WALState.recover (runAppends ops (emptyWAL V)).file).current_offset
        = (runAppends ops (emptyWAL V)).current_offset
      ∧ ∀ hne : (runAppends ops (emptyWAL V)).file ≠ [],
          ((runAppends ops (emptyWAL V)).file.getLast hne).offset
            = (WALState.recover
                (runAppends ops (emptyWAL V)).file).current_offset := by
  have hfold := runAppends_recoverFold ops (emptyWAL V) rfl
  have hlast := runAppends_getLast ops (emptyWAL V)
    (fun hne => absurd rfl hne)
  refine ⟨?_, ?_, ?_⟩
  · show (recoverFold (runAppends ops (emptyWAL V)).file).1 = _
    rw [hfold]
  · show (recoverFold (runAppends ops (emptyWAL V)).file).2 = _
    rw [hfold]
  · intro hne
    show _ = (recoverFold (runAppends ops (emptyWAL V)).file).2
    rw [hfold]
    exact hlast hne

/-- C1 witness: a concrete three-operation history (two PUTs and a DELETE)
for which the replay equivalence holds and the last entry in the file has
offset 3 = recovered `current_offset`. -/
theorem wal_replay_equivalence_witness :
    ((runAppends
        [⟨"a", some 5, "PUT", 10⟩, ⟨"b", some 6, "PUT", 11⟩,
         ⟨"a", none, "DELETE", 12⟩] (emptyWAL Nat)).file ≠ [])
    ∧ ((WALState.recover (runAppends
        [⟨"a", some 5, "PUT", 10⟩, ⟨"b", some 6, "PUT", 11⟩,
         ⟨"a", none, "DELETE", 12⟩] (emptyWAL Nat)).file).store
      = (runAppends
        [⟨"a", some 5, "PUT", 10⟩, ⟨"b", some 6, "PUT", 11⟩,
         ⟨"a", none, "DELETE", 12⟩] (emptyWAL Nat)).store) := by
  refine ⟨by decide, (wal_replay_equivalence
    [⟨"a", some 5, "PUT", 10⟩, ⟨"b", some 6, "PUT", 11⟩,
     ⟨"a", none, "DELETE", 12⟩]).1⟩

/-- C2. For every sequence of `append` operations on a single WAL writer,
the offsets of the entries written to the WAL file are exactly
`1, 2, …, n`: each append's entry has offset one greater than the previous
entry's, starting from 1, strictly ascending with no gaps. -/
theorem wal_monotonicity {V : Type} (ops : List (AppendOp V)) :
    (runAppends ops (emptyWAL V)).file.map (fun e => e.offset)
      = List.range' 1 ops.length := by
  obtain ⟨g1, g2, g3⟩ := runAppends_offsets ops (emptyWAL V) rfl rfl
  rw [g1, g2, g3]
  simp [emptyWAL]

lemma applyAll_concat {V : Type} (es : List (WALEntry V)) (e : WALEntry V)
    (s : Store V) :
    applyAll (es ++ [e]) s = applyEntry e (applyAll es s) := by
  unfold applyAll
  rw [List.foldl_append]
  rfl

/-- C3. After any sequence of applied WAL entries (all with op `PUT` or
`DELETE`) starting from an empty state, for every key: the key is present
in the in-memory map iff the latest entry for that key in the applied
prefix is a `PUT`, and in that case its stored value and version are that
latest `PUT`'s value and offset; when the latest entry for the key is a
`DELETE` (or there is none), the key is absent. -/
theorem materialized_state {V : Type} (es : List (WALEntry V))
    (hops : ∀ e ∈ es, e.op = "PUT" ∨ e.op = "DELETE") (k : String) :
    applyAll es (emptyStore V) k =
      match (es.filter fun e => e.key == k).getLast? with
      | none => none
      | some e => if e.op = "PUT" then some (e.value, e.offset) else none := by
  induction es using List.reverseRecOn with
  | nil => rfl
  | append_singleton es e ih =>
    have hops' : ∀ x ∈ es, x.op = "PUT" ∨ x.op = "DELETE" :=
      fun x hx => hops x (List.mem_append_left _ hx)
    have he := hops e (List.mem_append_right _ (List.mem_singleton_self e))
    rw [applyAll_concat, List.filter_append]
    by_cases hk : e.key = k
    · have hfilter : List.filter (fun x => x.key == k) [e] = [e] := by
        simp [hk]
      rw [hfilter, List.getLast?_concat]
      rcases he with hput | hdel
      · simp [applyEntry, hput, hk]
      · simp [applyEntry, hdel, hk]
    · have hfilter : List.filter (fun x => x.key == k) [e] = [] := by
        simp [hk]
      rw [hfilter, List.append_nil]
      have happly : applyEntry e (applyAll es (emptyStore V)) k
          = applyAll es (emptyStore V) k := by
        have hkk : ¬(k = e.key) := fun h => hk h.symm
        unfold applyEntry
        split
        · simp [hkk]
        · split
          · simp [hkk]
          · rfl
      rw [happly, ih hops']

/-- C3 witness: a concrete history `PUT a, PUT b, DELETE a, PUT a` (all
ops well-formed) evaluated at key `"a"`: the latest entry for `"a"` is the
`PUT` at offset 4, and the map holds `(some 9, 4)` there. -/
theorem materialized_state_witness :
    (∀ e ∈ ([⟨1, "PUT", "a", some 5, 0⟩, ⟨2, "PUT", "b", some 6, 0⟩,
              ⟨3, "DELETE", "a", none, 0⟩, ⟨4, "PUT", "a", some 9, 0⟩] :
        List (WALEntry Nat)),
        e.op = "PUT" ∨ e.op = "DELETE")
    ∧ (applyAll ([⟨1, "PUT", "a", some 5, 0⟩, ⟨2, "PUT", "b", some 6, 0⟩,
              ⟨3, "DELETE", "a", none, 0⟩, ⟨4, "PUT", "a", some 9, 0⟩] :
        List (WALEntry Nat)) (emptyStore Nat) "a"
      = match (([⟨1, "PUT", "a", some 5, 0⟩, ⟨2, "PUT", "b", some 6, 0⟩,
              ⟨3, "DELETE", "a", none, 0⟩, ⟨4, "PUT", "a", some 9, 0⟩] :
          List (WALEntry Nat)).filter fun e => e.key == "a").getLast? with
        | none => none
        | some e => if e.op = "PUT" then some (e.value, e.offset)
                    else none) :=
  ⟨by decide, materialized_state _ (by decide) "a"⟩

/-! ## `apply_batch` lemmas -/

lemma apply_batch_offset_mono {V : Type} (es : List (WALEntry V))
    (st : WALState V) :
    st.current_offset ≤ (st.apply_batch es).current_offset := by
  induction es generalizing st with
  | nil => exact le_refl _
  | cons e es ih =>
    show st.current_offset
        ≤ (WALState.apply_batch
            (if e.offset ≤ st.current_offset then st
             else { file := st.file ++ [e], store := applyEntry e st.store,
                    current_offset := e.offset }) es).current_offset
    split
    · exact ih st
    · next hgt =>
      have h1 : st.current_offset ≤ e.offset := le_of_not_le hgt
      have h2 := ih
        (WALState.mk (st.file ++ [e]) (applyEntry e st.store) e.offset)
      exact le_trans h1 h2

lemma apply_batch_covers {V : Type} (es : List (WALEntry V))
    (st : WALState V) :
    ∀ e ∈ es, e.offset ≤ (st.apply_batch es).current_offset := by
  induction es generalizing st with
  | nil => intro e h; exact absurd h (List.not_mem_nil e)
  | cons e es ih =>
    intro x hx
    have hstep : WALState.apply_batch st (e :: es)
        = WALState.apply_batch
            (if e.offset ≤ st.current_offset then st
             else { file := st.file ++ [e], store := applyEntry e st.store,
                    current_offset := e.offset }) es := rfl
    rcases List.mem_cons.mp hx with hxe | hxes
    · subst hxe
      rw [hstep]
      split
      · next hle =>
        exact le_trans hle (apply_batch_offset_mono es st)
      · next hgt =>
        have h2 := apply_batch_offset_mono es
          (WALState.mk (st.file ++ [x]) (applyEntry x st.store) x.offset)
        exact h2
    · rw [hstep]
      split
      · exact ih st x hxes
      · exact ih _ x hxes

lemma apply_batch_skip_all {V : Type} (es : List (WALEntry V))
    (st : WALState V) (h : ∀ e ∈ es, e.offset ≤ st.current_offset) :
    st.apply_batch es = st := by
  induction es with
  | nil => rfl
  | cons e es ih =>
    have hstep : WALState.apply_batch st (e :: es)
        = WALState.apply_batch
            (if e.offset ≤ st.current_offset then st
             else { file := st.file ++ [e], store := applyEntry e st.store,
                    current_offset := e.offset }) es := rfl
    rw [hstep, if_pos (h e (List.mem_cons_self e es))]
    exact ih fun x hx => h x (List.mem_cons_of_mem e hx)

/-- C4. For every batch of WAL entries in ascending offset order and every
follower state: a batch all of whose offsets are at most `current_offset`
is skipped entirely (the state — WAL file, map and offset — is unchanged,
so an entry at or below the high-water mark is never re-applied), and
applying the same batch twice leaves the WAL file, the in-memory map and
`current_offset` identical to applying it once. -/
theorem apply_batch_idempotent {V : Type} (st : WALState V)
    (es : List (WALEntry V))
    (hasc : es.Chain' fun a b => a.offset < b.offset) :
    ((∀ e ∈ es, e.offset ≤ st.current_offset) → st.apply_batch es = st)
    ∧ (st.apply_batch es).apply_batch es = st.apply_batch es := by
  refine ⟨fun h => apply_batch_skip_all es st h, ?_⟩
  exact apply_batch_skip_all es _ (apply_batch_covers es st)

/-- C4 witness: a concrete ascending batch (offsets 1, 2) applied to the
empty follower state; re-application changes nothing. -/
theorem apply_batch_idempotent_witness :
    (([⟨1, "PUT", "a", some 5, 0⟩, ⟨2, "DELETE", "a", none, 0⟩] :
        List (WALEntry Nat)).Chain' fun a b => a.offset < b.offset)
    ∧ (((∀ e ∈ ([⟨1, "PUT", "a", some 5, 0⟩, ⟨2, "DELETE", "a", none, 0⟩] :
          List (WALEntry Nat)),
          e.offset ≤ (emptyWAL Nat).current_offset) →
        (emptyWAL Nat).apply_batch
          [⟨1, "PUT", "a", some 5, 0⟩, ⟨2, "DELETE", "a", none, 0⟩]
          = emptyWAL Nat)
      ∧ ((emptyWAL Nat).apply_batch
            [⟨1, "PUT", "a", some 5, 0⟩, ⟨2, "DELETE", "a", none, 0⟩]
          ).apply_batch
            [⟨1, "PUT", "a", some 5, 0⟩, ⟨2, "DELETE", "a", none, 0⟩]
        = (emptyWAL Nat).apply_batch
            [⟨1, "PUT", "a", some 5, 0⟩, ⟨2, "DELETE", "a", none, 0⟩]) :=
  ⟨List.chain'_pair.mpr (by decide),
   apply_batch_idempotent (emptyWAL Nat) _ (List.chain'_pair.mpr (by decide))⟩

/-! ## Topology registry lemmas -/

lemma registerShard_known (st : CoordState) (shard_id url role : String)
    (g0 : ShardGroup) (h0 : st.topology shard_id = some g0) :
    registerShard st shard_id url role
      = if role = "leader" then
          CoordState.mk
            (Function.update st.topology shard_id
              (some (ShardGroup.mk (some url) g0.followers)))
            st.ringNodes
        else if url ∈ g0.followers then st
        else
          CoordState.mk
            (Function.update st.topology shard_id
              (some (ShardGroup.mk g0.leader (g0.followers ++ [url]))))
            st.ringNodes := by
  simp [registerShard, h0]

lemma registerShard_unknown (st : CoordState) (shard_id url role : String)
    (h0 : st.topology shard_id = none) :
    registerShard st shard_id url role
      = if role = "leader" then
          CoordState.mk
            (Function.update st.topology shard_id
              (some (ShardGroup.mk (some url) [])))
            (st.ringNodes ++ [shard_id])
        else
          CoordState.mk
            (Function.update st.topology shard_id
              (some (ShardGroup.mk none [url])))
            (st.ringNodes ++ [shard_id]) := by
  simp [registerShard, h0, Function.update_idem]

/-- C9. For every `shard_id`, `url`, `role` and every coordinator state,
calling `register_shard` twice in succession leaves the topology map, the
ring membership, and the follower lists in the same state as calling it
once: a follower url already present is not appended again and a leader
registration overwrites the stored leader with the same value. -/
theorem register_idempotent (st : CoordState) (shard_id url role : String) :
    registerShard (registerShard st shard_id url role) shard_id url role
      = registerShard st shard_id url role := by
  by_cases hrole : role = "leader"
  · subst hrole
    rcases h0 : st.topology shard_id with _ | g0
    · have hT : registerShard st shard_id url "leader"
          = CoordState.mk
              (Function.update st.topology shard_id
                (some (ShardGroup.mk (some url) [])))
              (st.ringNodes ++ [shard_id]) := by
        rw [registerShard_unknown st shard_id url "leader" h0, if_pos rfl]
      rw [hT]
      have h1 : (CoordState.mk
            (Function.update st.topology shard_id
              (some (ShardGroup.mk (some url) [])))
            (st.ringNodes ++ [shard_id])).topology shard_id
          = some (ShardGroup.mk (some url) []) := by
        simp
      rw [registerShard_known _ shard_id url "leader" _ h1, if_pos rfl]
      simp [Function.update_idem]
    · have hT : registerShard st shard_id url "leader"
          = CoordState.mk
              (Function.update st.topology shard_id
                (some (ShardGroup.mk (some url) g0.followers)))
              st.ringNodes := by
        rw [registerShard_known st shard_id url "leader" g0 h0, if_pos rfl]
      rw [hT]
      have h1 : (CoordState.mk
            (Function.update st.topology shard_id
              (some (ShardGroup.mk (some url) g0.followers)))
            st.ringNodes).topology shard_id
          = some (ShardGroup.mk (some url) g0.followers) := by
        simp
      rw [registerShard_known _ shard_id url "leader" _ h1, if_pos rfl]
      simp [Function.update_idem]
  · rcases h0 : st.topology shard_id with _ | g0
    · have hT : registerShard st shard_id url role
          = CoordState.mk
              (Function.update st.topology shard_id
                (some (ShardGroup.mk none [url])))
              (st.ringNodes ++ [shard_id]) := by
        rw [registerShard_unknown st shard_id url role h0, if_neg hrole]
      rw [hT]
      have h1 : (CoordState.mk
            (Function.update st.topology shard_id
              (some (ShardGroup.mk none [url])))
            (st.ringNodes ++ [shard_id])).topology shard_id
          = some (ShardGroup.mk none [url]) := by
        simp
      rw [registerShard_known _ shard_id url role _ h1, if_neg hrole,
        if_pos (List.mem_singleton_self url)]
    · by_cases hmem : url ∈ g0.followers
      · have hT : registerShard st shard_id url role = st := by
          rw [registerShard_known st shard_id url role g0 h0, if_neg hrole,
            if_pos hmem]
        rw [hT, hT]
      · have hT : registerShard st shard_id url role
            = CoordState.mk
                (Function.update st.topology shard_id
                  (some (ShardGroup.mk g0.leader (g0.followers ++ [url]))))
                st.ringNodes := by
          rw [registerShard_known st shard_id url role g0 h0, if_neg hrole,
            if_neg hmem]
        rw [hT]
        have h1 : (CoordState.mk
              (Function.update st.topology shard_id
                (some (ShardGroup.mk g0.leader (g0.followers ++ [url]))))
              st.ringNodes).topology shard_id
            = some (ShardGroup.mk g0.leader (g0.followers ++ [url])) := by
          simp
        rw [registerShard_known _ shard_id url role _ h1, if_neg hrole,
          if_pos (List.mem_append_right _ (List.mem_singleton_self url))]

/-! ## Quorum-read lemmas -/

lemma IsFirstMax.le_of_mem {V : Type} {l : List (Option V × Nat)}
    {b : Option V × Nat} (h : IsFirstMax l b) :
    ∀ z ∈ l, z.2 ≤ b.2 := by
  obtain ⟨l₁, l₂, heq, hlt, hle⟩ := h
  subst heq
  intro z hz
  rcases List.mem_append.mp hz with h1 | h2
  · exact le_of_lt (hlt z h1)
  · rcases List.mem_cons.mp h2 with h3 | h3
    · exact le_of_eq (congrArg Prod.snd h3)
    · exact hle z h3

lemma maxByVersion_isFirstMax {V : Type} (x : Option V × Nat)
    (xs : List (Option V × Nat)) :
    IsFirstMax (x :: xs) (maxByVersion x xs) := by
  induction xs generalizing x with
  | nil => exact ⟨[], [], rfl, by simp, by simp⟩
  | cons y ys ih =>
    have hstep : maxByVersion x (y :: ys)
        = maxByVersion (if y.2 > x.2 then y else x) ys := rfl
    by_cases hxy : y.2 > x.2
    · rw [hstep, if_pos hxy]
      obtain ⟨l₁, l₂, heq, hlt, hle⟩ := ih y
      have hyle : y.2 ≤ (maxByVersion y ys).2 :=
        IsFirstMax.le_of_mem ⟨l₁, l₂, heq, hlt, hle⟩ y
          (List.mem_cons_self y ys)
      refine ⟨x :: l₁, l₂, by simp [heq], ?_, hle⟩
      intro z hz
      rcases List.mem_cons.mp hz with h1 | h1
      · subst h1
        exact lt_of_lt_of_le hxy hyle
      · exact hlt z h1
    · rw [hstep, if_neg hxy]
      have hyx : y.2 ≤ x.2 := le_of_not_lt hxy
      obtain ⟨l₁, l₂, heq, hlt, hle⟩ := ih x
      rcases l₁ with _ | ⟨x', l₁'⟩
      · rw [List.nil_append] at heq
        injection heq with hx hys
        refine ⟨[], y :: ys, by simp [← hx], by simp, ?_⟩
        intro z hz
        rcases List.mem_cons.mp hz with h1 | h1
        · subst h1
          rw [← hx]
          exact hyx
        · exact hle z (hys ▸ h1)
      · rw [List.cons_append] at heq
        injection heq with hx hys
        have hxmem : x.2 < (maxByVersion x ys).2 := by
          have h' := hlt x' (List.mem_cons_self x' l₁')
          rw [← hx] at h'
          exact h'
        refine ⟨x :: y :: l₁', l₂, ?_, ?_, hle⟩
        · show x :: y :: ys = (x :: y :: l₁') ++ maxByVersion x ys :: l₂
          conv_lhs => rw [hys]
          rw [List.cons_append, List.cons_append]
        intro z hz
        rcases List.mem_cons.mp hz with h1 | h1
        · subst h1
          exact hxmem
        · rcases List.mem_cons.mp h1 with h2 | h2
          · subst h2
            exact lt_of_le_of_lt hyx hxmem
          · exact hlt z (List.mem_cons_of_mem x' h2)

/-- C5. For every quorum read where the replica set has at least `R`
replicas: when at least one of the `R` sampled replicas returns a
well-formed 200 response, the coordinator returns
`{value, version, quorum_met: true}` taken from the successful response
with the highest version, ties resolved in favour of the first in sample
order; when the replica set has fewer than `R` replicas the request fails
with status 400 (`InsufficientReplicas`); when no sampled replica succeeds
it fails with status 404. -/
theorem read_quorum_spec {V : Type} (numReplicas R : Nat)
    (rs : List (FetchResult V)) :
    (numReplicas < R → readQuorum numReplicas R rs = .error 400)
    ∧ (R ≤ numReplicas → validResults rs = [] →
        readQuorum numReplicas R rs = .error 404)
    ∧ (R ≤ numReplicas → ∀ x xs, validResults rs = x :: xs →
        ∃ b, IsFirstMax (validResults rs) b
          ∧ readQuorum numReplicas R rs = .success b.1 b.2 true) := by
  refine ⟨?_, ?_, ?_⟩
  · intro h
    unfold readQuorum
    rw [if_pos h]
  · intro hR hval
    unfold readQuorum
    rw [if_neg (Nat.not_lt.mpr hR), hval]
  · intro hR x xs hval
    refine ⟨maxByVersion x xs, ?_, ?_⟩
    · rw [hval]
      exact maxByVersion_isFirstMax x xs
    · unfold readQuorum
      rw [if_neg (Nat.not_lt.mpr hR), hval]

/-- C5 witness: three replicas, `R = 2`, one transport failure and one
well-formed 200 `{value: 7, version: 5}`: the quorum read succeeds with
the (unique, hence first) highest-version response. -/
theorem read_quorum_spec_witness :
    ((2 : Nat) ≤ 3
      ∧ validResults
          ([FetchResult.fail, FetchResult.ok (some 7) 5] :
            List (FetchResult Nat))
        = [((some 7 : Option Nat), 5)])
    ∧ ∃ b, IsFirstMax
          (validResults
            ([FetchResult.fail, FetchResult.ok (some 7) 5] :
              List (FetchResult Nat))) b
        ∧ readQuorum 3 2
            ([FetchResult.fail, FetchResult.ok (some 7) 5] :
              List (FetchResult Nat))
          = .success b.1 b.2 true :=
  ⟨⟨by decide, rfl⟩,
   (read_quorum_spec 3 2 _).2.2 (by decide) _ _ rfl⟩

/-- C6. The claim says a well-formed 404 is surfaced as `NotFound` on
whichever attempt it occurs; the code disagrees on the second attempt:
after a transport failure on the first replica, a 404 from the retried
replica is converted by the bare `except:` into the 502
`"Replica read failed"` answer (while the rest of the claim's behaviour —
404 on the first attempt without retry, 502 after two transport failures —
does hold). This theorem evaluates the handler at the failing input. -/
theorem read_record_second_attempt_404_becomes_502 :
    readRecord (V := Nat) FetchResult.fail FetchResult.notFound
        = ReadOutcome.error 502
      ∧ readRecord (V := Nat) FetchResult.fail FetchResult.notFound
        ≠ ReadOutcome.error 404 := by
  exact ⟨rfl, by decide⟩

/-- C7. The claim says a non-2xx response from the leader surfaces as 502;
the code never inspects the response's status (`raise_for_status` is
missing), so e.g. an HTTP 500 from the leader still yields
`{"status": "deleted"}`. This theorem evaluates the handler at the
failing input. -/
theorem delete_record_ignores_leader_status :
    deleteRecord (StatusResult.status 500) = DeleteOutcome.deleted
      ∧ deleteRecord (StatusResult.status 500) ≠ DeleteOutcome.error 502 := by
  exact ⟨rfl, by decide⟩

/-- C8 counterexample. The claim says a transport failure on the first
consulted replica is retried once against a freshly-sampled replica before
failing 502: with a first-attempt transport failure and a retry that would
answer 200, the claim predicts a 200 outcome, but the handler makes no
second call and answers 502. -/
theorem check_exists_retry_counterexample :
    checkExists StatusResult.fail (StatusResult.status 200) = 502
      ∧ (502 : Nat) ≠ 200 := by
  exact ⟨rfl, by decide⟩

/-- C8 (amended). The coordinator HEAD handler makes a single attempt
against one randomly-chosen replica: a transport failure fails immediately
with 502 and no retry is made (whatever a retry would have answered), and
otherwise the replica's status code is passed through unchanged. -/
theorem check_exists_single_attempt :
    (∀ r2 : StatusResult, checkExists StatusResult.fail r2 = 502)
      ∧ ∀ (c : Nat) (r2 : StatusResult),
          checkExists (StatusResult.status c) r2 = c :=
  ⟨fun _ => rfl, fun _ _ => rfl⟩

/-- C10. The coordinator's storage-key composition maps an empty-string
sort key to the bare partition key, so `(pk, "")` and `(pk, no sort key)`
address the same storage key: lookups in any shard store agree, and WAL
appends (the write/delete path) produce identical states under the two
addressings. -/
theorem storage_key_empty_sort_alias {V : Type} (pk : String) :
    getStorageKey pk (some "") = getStorageKey pk none
      ∧ (∀ s : Store V, s (getStorageKey pk (some ""))
          = s (getStorageKey pk none))
      ∧ ∀ (st : WALState V) (v : Option V) (op : String) (ts : Nat),
          st.append (getStorageKey pk (some "")) v op ts
            = st.append (getStorageKey pk none) v op ts := by
  have h : getStorageKey pk (some "") = getStorageKey pk none := by
    simp [getStorageKey]
  exact ⟨h, fun s => by rw [h], fun st v op ts => by rw [h]⟩

end KVStore
